import Mathlib

/-!
# memorycurvingCli: task lifecycle and session model

A shallow embedding of `main.go` (the lifecycle table `nextStatus` and the
key handling of `model.Update`) and of `db.go` (`saveTodo`, `updateTodo`),
followed by the properties proved about them.

Conventions of the embedding.

* A Go `rune` that holds a status is a `Char`; a Go `string` is a `String`
  (valid Unicode text only).
* `time.Duration` is an `Int` count of nanoseconds; `time.Time` is an instant
  given as nanoseconds since the Unix epoch, read on the wall clock of one
  fixed zone.  The constants used stay far below the `int64` range.
* `int` (the selection index) is an `Int`.
* The widgets (`textarea`, `viewport`, styles) and the SQLite engine are
  outside the embedding.  What the code reads from them arrives through `Env`:
  the text of the input box, the readings of `time.Now()` and whether
  `db.Exec` reports an error.  What the code sends to the store is returned as
  data (`DbCall`, `Call`).
-/

namespace MemoryCurving

/-! ## time -/

/-- Go `time.Duration`: nanoseconds. -/
abbrev Duration := Int

/-- Go `time.Hour` in nanoseconds. -/
def Hour : Duration := 3600000000000

/-- Go `time.Time`, as nanoseconds since the Unix epoch. -/
structure Time where
  unixNano : Int
deriving DecidableEq, Repr

/-- Go `Time.Add`. -/
def Time.Add (t : Time) (d : Duration) : Time := ⟨t.unixNano + d⟩

/-- Calendar fields of an instant that the layouts of this program print. -/
structure Civil where
  month : Nat
  day : Nat
  hour : Nat
  minute : Nat
deriving DecidableEq, Repr

/-- Calendar fields of an instant (proleptic Gregorian calendar). -/
def Time.civil (t : Time) : Civil :=
  let secs : Int := t.unixNano / 1000000000
  let days : Int := secs / 86400
  let sod : Int := secs % 86400
  let z : Int := days + 719468
  let era : Int := z / 146097
  let doe : Int := z - era * 146097
  let yoe : Int := (doe - doe / 1460 + doe / 36524 - doe / 146096) / 365
  let doy : Int := doe - (365 * yoe + yoe / 4 - yoe / 100)
  let mp : Int := (5 * doy + 2) / 153
  let d : Int := doy - (153 * mp + 2) / 5 + 1
  let mo : Int := if mp < 10 then mp + 3 else mp - 9
  { month := mo.toNat, day := d.toNat, hour := (sod / 3600).toNat,
    minute := (sod % 3600 / 60).toNat }

/-- Two decimal digits, zero padded. -/
def pad2 (n : Nat) : List Char := [Nat.digitChar (n / 10 % 10), Nat.digitChar (n % 10)]

/-- Layout interpretation of Go `Time.Format` for the reference elements this
program uses: `01` month, `02` day, `15` hour, `04` minute; every other
character is copied. -/
def formatLayout (c : Civil) : List Char → List Char
  | [] => []
  | [a] => [a]
  | a :: b :: rest =>
    if a = '0' ∧ b = '1' then pad2 c.month ++ formatLayout c rest
    else if a = '0' ∧ b = '2' then pad2 c.day ++ formatLayout c rest
    else if a = '1' ∧ b = '5' then pad2 c.hour ++ formatLayout c rest
    else if a = '0' ∧ b = '4' then pad2 c.minute ++ formatLayout c rest
    else a :: formatLayout c (b :: rest)

/-- Go `Time.Format`. -/
def Time.Format (t : Time) (layout : String) : String :=
  String.mk (formatLayout t.civil layout.data)

/-! ## strings -/

/-- Go `unicode.IsSpace`. -/
def isSpace (c : Char) : Bool :=
  c = '\t' || c = '\n' || c = Char.ofNat 0x0B || c = Char.ofNat 0x0C || c = '\r' || c = ' '
    || c = Char.ofNat 0x85 || c = Char.ofNat 0xA0 || c = Char.ofNat 0x1680
    || (0x2000 ≤ c.toNat && c.toNat ≤ 0x200A)
    || c = Char.ofNat 0x2028 || c = Char.ofNat 0x2029 || c = Char.ofNat 0x202F
    || c = Char.ofNat 0x205F || c = Char.ofNat 0x3000

/-- Go `strings.TrimSpace`: leading white space is cut, then trailing. -/
def TrimSpace (s : String) : String :=
  String.mk (List.rdropWhile isSpace (List.dropWhile isSpace s.data))

/-! ## main.go: TodoItem and nextStatus -/

/-- The struct `TodoItem`. -/
structure TodoItem where
  content : String
  status : Char
  deadline : Time
  completed : Bool
deriving DecidableEq, Repr

/-- The function `nextStatus`: the `switch` on the current status. -/
def nextStatus (current : Char) : Char × Duration :=
  if current = ' ' then ('·', 0)
  else if current = '·' then ('*', 2 * Hour)
  else if current = '*' then ('o', 12 * Hour)
  else if current = 'o' then ('x', 24 * Hour)
  else if current = 'x' then ('√', 7 * 24 * Hour)
  else if current = '√' then ('√', 0)
  else (' ', 0)

/-! ## db.go: saveTodo and updateTodo -/

/-- A statement handed to `db.Exec`, with its positional parameters. -/
inductive DbCall where
  /-- Statement `INSERT INTO todos (content, status, deadline, completed) VALUES (?, ?, ?, ?)` -/
  | insertTodo (content status deadline : String) (completed : Bool)
  /-- Statement `UPDATE todos SET status = ?, deadline = ?, completed = ? WHERE content = ?` -/
  | updateTodos (status deadline : String) (completed : Bool) (content : String)
deriving DecidableEq, Repr

/-- What a `db.go` function did: the statements it executed and whether it
returned a non-nil error. -/
structure DbResult where
  calls : List DbCall
  err : Bool
deriving DecidableEq, Repr

/-- The function `saveTodo`.  `now` is its reading of `time.Now()`, `execOk`
tells whether `db.Exec` succeeds. -/
def saveTodo (todo : TodoItem) (now : Time) (execOk : Bool) : DbResult :=
  if TrimSpace todo.content = "" then
    { calls := [], err := true }
  else
    { calls := [DbCall.insertTodo todo.content (String.singleton todo.status)
        (now.Format "01-02 15:04") todo.completed],
      err := !execOk }

/-- The function `updateTodo`.  `now` is its reading of `time.Now()`, `execOk`
tells whether `db.Exec` succeeds. -/
def updateTodo (todo : TodoItem) (now : Time) (execOk : Bool) : DbResult :=
  { calls := [DbCall.updateTodos (String.singleton todo.status)
      (now.Format "01-02 15:04") todo.completed todo.content],
    err := !execOk }

/-! ## main.go: the session model -/

/-- The struct `model`, restricted to the fields the key handling decides on
(`viewport`, `textarea`, `senderStyle` and `err` are widget state). -/
structure model where
  todos : List TodoItem
  focused : Bool
  selected : Int
deriving DecidableEq, Repr

/-- The function `initialModel`; `todos` is what `loadTodos()` returned. -/
def initialModel (todos : List TodoItem) : model :=
  { todos := todos, focused := false, selected := 0 }

/-- Key types of `KeyMsg` of bubbletea that `Update` distinguishes; `KeyOther` stands
for every other key. -/
inductive KeyType where
  | KeyCtrlC | KeyEsc | KeyTab | KeyEnter | KeyCtrlY | KeyUp | KeyDown | KeyOther
deriving DecidableEq, Repr

/-- Messages reaching `Update`; `other` stands for every other message type. -/
inductive Msg where
  | WindowSizeMsg (width height : Int)
  | KeyMsg (type : KeyType)
  | errMsg
  | other
deriving DecidableEq, Repr

/-- What one call of `Update` reads from its surroundings. -/
structure Env where
  /-- The result of `m.textarea.Value()`. -/
  textareaValue : String
  /-- The reading of `time.Now()` inside `Update`. -/
  now : Time
  /-- The reading of `time.Now()` inside `saveTodo` or `updateTodo`. -/
  dbNow : Time
  /-- Whether `db.Exec` returns a nil error. -/
  execOk : Bool
deriving DecidableEq, Repr

/-- A call from `Update` into `db.go`, with its argument. -/
inductive Call where
  | saveTodo (t : TodoItem)
  | updateTodo (t : TodoItem)
  | cleanupOldTodos
deriving DecidableEq, Repr

/-- The method `model.Update`: the new model and the calls made into `db.go`,
in order. -/
def Update (m : model) (msg : Msg) (env : Env) : model × List Call :=
  match msg with
  | Msg.WindowSizeMsg _ _ => (m, [])
  | Msg.errMsg => (m, [])
  | Msg.other => (m, [])
  | Msg.KeyMsg KeyType.KeyCtrlC => (m, [Call.cleanupOldTodos])
  | Msg.KeyMsg KeyType.KeyEsc => (m, [Call.cleanupOldTodos])
  | Msg.KeyMsg KeyType.KeyOther => (m, [])
  | Msg.KeyMsg KeyType.KeyTab =>
    let focused := !m.focused
    if focused then
      if m.todos.length = 0 then
        ({ m with focused := focused, selected := 0 }, [])
      else if m.selected ≥ (m.todos.length : Int) then
        ({ m with focused := focused, selected := (m.todos.length : Int) - 1 }, [])
      else
        ({ m with focused := focused }, [])
    else
      ({ m with focused := focused }, [])
  | Msg.KeyMsg KeyType.KeyEnter =>
    if !m.focused then
      let content := TrimSpace env.textareaValue
      if content ≠ "" then
        let newTodo : TodoItem :=
          { content := content, status := ' ', deadline := env.now, completed := false }
        if (saveTodo newTodo env.dbNow env.execOk).err then
          (m, [Call.saveTodo newTodo])
        else
          ({ m with todos := m.todos ++ [newTodo] }, [Call.saveTodo newTodo])
      else (m, [])
    else (m, [])
  | Msg.KeyMsg KeyType.KeyCtrlY =>
    if h : m.focused = true ∧ m.todos.length > 0 ∧ m.selected ≥ 0
        ∧ m.selected < (m.todos.length : Int) then
      let i : Nat := m.selected.toNat
      let old : TodoItem := m.todos.get ⟨i, by omega⟩
      let next := nextStatus old.status
      let nextStat := next.1
      let duration := next.2
      let t1 : TodoItem := { old with status := nextStat }
      let t2 : TodoItem := if duration > 0 then { t1 with deadline := env.now.Add duration } else t1
      let todos := m.todos.set i t2
      if nextStat = '√' then
        let todos := todos.take i ++ todos.drop (i + 1)
        if todos.length > 0 then
          if m.selected ≥ (todos.length : Int) then
            ({ m with todos := todos, selected := (todos.length : Int) - 1 }, [Call.updateTodo t2])
          else
            ({ m with todos := todos }, [Call.updateTodo t2])
        else
          ({ m with todos := todos, selected := 0 }, [Call.updateTodo t2])
      else
        ({ m with todos := todos }, [Call.updateTodo t2])
    else (m, [])
  | Msg.KeyMsg KeyType.KeyUp =>
    if m.focused ∧ m.selected > 0 then
      ({ m with selected := m.selected - 1 }, [])
    else (m, [])
  | Msg.KeyMsg KeyType.KeyDown =>
    if m.focused ∧ m.todos.length > 0 ∧ m.selected < (m.todos.length : Int) - 1 then
      ({ m with selected := m.selected + 1 }, [])
    else (m, [])

/-- The model after a sequence of messages, each with its surroundings. -/
def run (m : model) : List (Msg × Env) → model
  | [] => m
  | e :: es => run (Update m e.1 e.2).1 es

/-- The status reached from `s` after `k` applications of `nextStatus`. -/
def advance : Nat → Char → Char
  | 0, s => s
  | k + 1, s => advance k (nextStatus s).1

/-- The selection is valid: 0 on an empty list, otherwise an index of it. -/
def selectionValid (m : model) : Prop :=
  if m.todos = [] then m.selected = 0
  else 0 ≤ m.selected ∧ m.selected < (m.todos.length : Int)

instance (m : model) : Decidable (selectionValid m) := by
  unfold selectionValid; infer_instance

/-- The `completed` flag agrees with the terminal status. -/
def completedTracksStatus (t : TodoItem) : Prop :=
  t.completed = true ↔ t.status = '√'

instance (t : TodoItem) : Decidable (completedTracksStatus t) := by
  unfold completedTracksStatus; infer_instance

/-- The list-navigation model holding the single task `t`. -/
def single (t : TodoItem) : model := { todos := [t], focused := true, selected := 0 }

/-- An environment with both clock readings at `now` and a working store. -/
def envAt (now : Time) : Env :=
  { textareaValue := "", now := now, dbNow := now, execOk := true }

/-! ## Auxiliary facts -/

theorem advance_add (a b : Nat) (s : Char) : advance (a + b) s = advance b (advance a s) := by
  induction a generalizing s with
  | zero => simp [advance]
  | succ n ih =>
    have e : n + 1 + b = (n + b) + 1 := by omega
    rw [e]
    simp only [advance]
    exact ih _

theorem advance_terminal (k : Nat) : advance k '√' = '√' := by
  induction k with
  | zero => rfl
  | succ n ih =>
    simp only [advance]
    have e : (nextStatus '√').1 = '√' := by decide
    rw [e]
    exact ih

theorem TrimSpace_idem (s : String) : TrimSpace (TrimSpace s) = TrimSpace s := by
  unfold TrimSpace
  simp only
  congr 1
  have hpre := List.rdropWhile_prefix isSpace (l := List.dropWhile isSpace s.data)
  have hd : List.dropWhile isSpace (List.rdropWhile isSpace (List.dropWhile isSpace s.data))
      = List.rdropWhile isSpace (List.dropWhile isSpace s.data) := by
    rw [List.dropWhile_eq_self_iff]
    intro hpos hsp
    have hlen : 0 < (List.dropWhile isSpace s.data).length :=
      lt_of_lt_of_le hpos hpre.length_le
    apply List.dropWhile_get_zero_not isSpace s.data hlen
    have e := hpre.getElem hpos
    simp only [List.get_eq_getElem]
    rw [← e]
    exact hsp
  rw [hd]
  exact List.rdropWhile_idempotent isSpace _

theorem take_drop_set_eq_eraseIdx (l : List TodoItem) (i : Nat) (t : TodoItem) :
    (l.set i t).take i ++ (l.set i t).drop (i + 1) = l.eraseIdx i := by
  rw [List.eraseIdx_eq_take_drop_succ]
  congr 1
  · rw [List.set_take]
    exact List.set_eq_of_length_le (by simp)
  · exact List.drop_set_of_lt t l (Nat.lt_succ_self i)

/-- The Ctrl+Y branch of `Update` when its guard holds, in closed form. -/
theorem Update_ctrlY_eq (m : model) (env : Env) (i : Nat) (hf : m.focused = true)
    (hi : i < m.todos.length) (hs : m.selected = (i : Int)) :
    Update m (Msg.KeyMsg KeyType.KeyCtrlY) env =
      (if (nextStatus (m.todos.get ⟨i, hi⟩).status).1 = '√' then
          { m with
            todos := m.todos.eraseIdx i
            selected := if m.todos.length = 1 then 0 else min (i : Int) ((m.todos.length : Int) - 2) }
        else
          { m with
            todos := m.todos.set i
              { m.todos.get ⟨i, hi⟩ with
                status := (nextStatus (m.todos.get ⟨i, hi⟩).status).1
                deadline :=
                  if (nextStatus (m.todos.get ⟨i, hi⟩).status).2 > 0 then
                    env.now.Add (nextStatus (m.todos.get ⟨i, hi⟩).status).2
                  else (m.todos.get ⟨i, hi⟩).deadline } },
       [Call.updateTodo
          { m.todos.get ⟨i, hi⟩ with
            status := (nextStatus (m.todos.get ⟨i, hi⟩).status).1
            deadline :=
              if (nextStatus (m.todos.get ⟨i, hi⟩).status).2 > 0 then
                env.now.Add (nextStatus (m.todos.get ⟨i, hi⟩).status).2
              else (m.todos.get ⟨i, hi⟩).deadline }]) := by
  have hg : m.focused = true ∧ m.todos.length > 0 ∧ m.selected ≥ 0
      ∧ m.selected < (m.todos.length : Int) := by
    refine ⟨hf, by omega, by omega, by omega⟩
  have hn : m.selected.toNat = i := by omega
  unfold Update
  simp only [dif_pos hg, take_drop_set_eq_eraseIdx]
  subst hn
  have hlen : (m.todos.eraseIdx m.selected.toNat).length = m.todos.length - 1 :=
    List.length_eraseIdx_of_lt hi
  have hsel : (if m.todos.length - 1 > 0 then
        (if m.selected ≥ ((m.todos.length - 1 : Nat) : Int) then
          ((m.todos.length - 1 : Nat) : Int) - 1 else m.selected)
      else 0)
      = if m.todos.length = 1 then 0
        else min (m.selected.toNat : Int) ((m.todos.length : Int) - 2) := by
    split_ifs <;> omega
  by_cases hd : (nextStatus (m.todos.get ⟨m.selected.toNat, hi⟩).status).2 > 0 <;>
  by_cases hterm : (nextStatus (m.todos.get ⟨m.selected.toNat, hi⟩).status).1 = '√'
  · simp only [hd, hterm, if_true, hlen, ← hsel]
    split_ifs <;> rfl
  · simp only [hd, hterm, if_true, if_false]
  · simp only [hd, hterm, if_true, if_false, hlen, ← hsel]
    split_ifs <;> rfl
  · simp only [hd, hterm, if_false]

/-- The Ctrl+Y branch of `Update` when its guard fails. -/
theorem Update_ctrlY_skip (m : model) (env : Env)
    (h : ¬ (m.focused = true ∧ m.todos.length > 0 ∧ m.selected ≥ 0
      ∧ m.selected < (m.todos.length : Int))) :
    Update m (Msg.KeyMsg KeyType.KeyCtrlY) env = (m, []) := by
  simp only [Update, dif_neg h]

/-- The Enter branch of `Update`, in closed form: the guard of `saveTodo` on
blank content cannot fire on trimmed non-empty text. -/
theorem Update_enter_eq (m : model) (env : Env) :
    Update m (Msg.KeyMsg KeyType.KeyEnter) env =
      if m.focused = false ∧ TrimSpace env.textareaValue ≠ "" then
        (if env.execOk = true then
            { m with todos := m.todos ++
                [{ content := TrimSpace env.textareaValue, status := ' ',
                   deadline := env.now, completed := false }] }
          else m,
         [Call.saveTodo { content := TrimSpace env.textareaValue, status := ' ',
                          deadline := env.now, completed := false }])
      else (m, []) := by
  unfold Update
  by_cases hf : m.focused = true
  · simp [hf]
  · have hf2 : m.focused = false := by simpa using hf
    by_cases hc : TrimSpace env.textareaValue = ""
    · simp [hf2, hc]
    · cases hx : env.execOk <;> simp [hf2, hc, saveTodo, TrimSpace_idem]

/-- The Tab, Up and Down branches of `Update`, in closed form. -/
theorem Update_tab_eq (m : model) (env : Env) :
    Update m (Msg.KeyMsg KeyType.KeyTab) env =
      ({ m with
          focused := !m.focused
          selected :=
            if m.focused = false then
              (if m.todos.length = 0 then 0
               else if m.selected ≥ (m.todos.length : Int) then (m.todos.length : Int) - 1
               else m.selected)
            else m.selected }, []) := by
  simp only [Update]
  cases hf : m.focused
  · simp only [Bool.not_false, if_true]
    split_ifs <;> rfl
  · simp

theorem Update_up_eq (m : model) (env : Env) :
    Update m (Msg.KeyMsg KeyType.KeyUp) env =
      ({ m with selected := if m.focused = true ∧ m.selected > 0 then m.selected - 1 else m.selected }, []) := by
  simp only [Update]
  split_ifs <;> rfl

theorem Update_down_eq (m : model) (env : Env) :
    Update m (Msg.KeyMsg KeyType.KeyDown) env =
      ({ m with selected := if m.focused = true ∧ m.todos.length > 0 ∧ m.selected < (m.todos.length : Int) - 1 then m.selected + 1 else m.selected }, []) := by
  simp only [Update]
  split_ifs <;> rfl

/-- One call of `Update` keeps the selection valid. -/
theorem Update_selectionValid (m : model) (msg : Msg) (env : Env)
    (h : selectionValid m) : selectionValid (Update m msg env).1 := by
  cases msg with
  | WindowSizeMsg w ht => simpa only [Update] using h
  | errMsg => simpa only [Update] using h
  | other => simpa only [Update] using h
  | KeyMsg k =>
    cases k with
    | KeyCtrlC => simpa only [Update] using h
    | KeyEsc => simpa only [Update] using h
    | KeyOther => simpa only [Update] using h
    | KeyTab =>
      rw [Update_tab_eq]
      unfold selectionValid at h ⊢
      simp only
      by_cases h0 : m.todos = []
      · simp only [h0, if_true] at h ⊢
        split_ifs <;> simp_all
      · have hl : m.todos.length ≠ 0 := fun hz => h0 (List.length_eq_zero.mp hz)
        simp only [h0, if_false] at h ⊢
        split_ifs <;> omega
    | KeyEnter =>
      rw [Update_enter_eq]
      unfold selectionValid at h ⊢
      by_cases h0 : m.todos = []
      · simp only [h0, if_true] at h
        split_ifs <;> simp_all
      · simp only [h0, if_false] at h
        split_ifs <;> simp_all
        omega
    | KeyCtrlY =>
      by_cases hg : m.focused = true ∧ m.todos.length > 0 ∧ m.selected ≥ 0
          ∧ m.selected < (m.todos.length : Int)
      · obtain ⟨hf, hpos, hge, hlt⟩ := hg
        have hi : m.selected.toNat < m.todos.length := by omega
        rw [Update_ctrlY_eq m env m.selected.toNat hf hi (by omega)]
        unfold selectionValid
        by_cases hterm : (nextStatus (m.todos.get ⟨m.selected.toNat, hi⟩).status).1 = '√'
        · simp only [hterm, if_true]
          have hle : (m.todos.eraseIdx m.selected.toNat).length = m.todos.length - 1 :=
            List.length_eraseIdx_of_lt hi
          by_cases h1 : m.todos.length = 1
          · have : m.todos.eraseIdx m.selected.toNat = [] := by
              apply List.length_eq_zero.mp
              omega
            simp [this, h1]
          · have hne : m.todos.eraseIdx m.selected.toNat ≠ [] := by
              intro hnil
              have := congrArg List.length hnil
              simp only [List.length_nil] at this
              omega
            simp only [hne, if_false, h1, hle]
            omega
        · simp only [hterm, if_false]
          have hne : m.todos.set m.selected.toNat
              { m.todos.get ⟨m.selected.toNat, hi⟩ with
                status := (nextStatus (m.todos.get ⟨m.selected.toNat, hi⟩).status).1
                deadline :=
                  if (nextStatus (m.todos.get ⟨m.selected.toNat, hi⟩).status).2 > 0 then
                    env.now.Add (nextStatus (m.todos.get ⟨m.selected.toNat, hi⟩).status).2
                  else (m.todos.get ⟨m.selected.toNat, hi⟩).deadline } ≠ [] := by
            intro hnil
            have := congrArg List.length hnil
            simp only [List.length_set, List.length_nil] at this
            omega
          simp only [hne, if_false, List.length_set]
          omega
      · rw [Update_ctrlY_skip m env hg]
        exact h
    | KeyUp =>
      rw [Update_up_eq]
      unfold selectionValid at h ⊢
      simp only
      by_cases h0 : m.todos = []
      · simp only [h0, if_true] at h ⊢
        split_ifs <;> omega
      · simp only [h0, if_false] at h ⊢
        split_ifs <;> omega
    | KeyDown =>
      rw [Update_down_eq]
      unfold selectionValid at h ⊢
      simp only
      by_cases h0 : m.todos = []
      · simp only [h0, if_true] at h ⊢
        split_ifs <;> simp_all
      · simp only [h0, if_false] at h ⊢
        split_ifs <;> omega

theorem run_selectionValid (m : model) (events : List (Msg × Env))
    (h : selectionValid m) : selectionValid (run m events) := by
  induction events generalizing m with
  | nil => exact h
  | cons e es ih => exact ih _ (Update_selectionValid m e.1 e.2 h)

theorem nextStatus_terminal_iff (c : Char) :
    (nextStatus c).1 = '√' ↔ c = 'x' ∨ c = '√' := by
  unfold nextStatus
  by_cases h1 : c = ' '
  · subst h1; decide
  by_cases h2 : c = '·'
  · subst h2; decide
  by_cases h3 : c = '*'
  · subst h3; decide
  by_cases h4 : c = 'o'
  · subst h4; decide
  by_cases h5 : c = 'x'
  · subst h5; decide
  by_cases h6 : c = '√'
  · subst h6; decide
  simp only [h1, h2, h3, h4, h5, h6, if_false, or_self, iff_false]
  decide

/-- Ctrl+Y on a two-element list with the selection on the second element. -/
theorem Update_ctrlY_second (a b : TodoItem) (env : Env) :
    (Update ⟨[a, b], true, 1⟩ (Msg.KeyMsg KeyType.KeyCtrlY) env).1 =
      if (nextStatus b.status).1 = '√' then ⟨[a], true, 0⟩
      else ⟨[a, ⟨b.content, (nextStatus b.status).1,
              if (nextStatus b.status).2 > 0 then env.now.Add (nextStatus b.status).2
              else b.deadline, b.completed⟩], true, 1⟩ := by
  rw [Update_ctrlY_eq ⟨[a, b], true, 1⟩ env 1 rfl (by simp) rfl]
  by_cases h1 : (nextStatus b.status).1 = '√' <;>
    by_cases h2 : (nextStatus b.status).2 > 0 <;> simp [h1, h2]

/-! ## The lifecycle table -/

/-- C1: `nextStatus` is the closed escalation table blank to state 1 (delay 0),
state 1 to state 2 (2h), state 2 to state 3 (12h), state 3 to state 4 (24h),
state 4 to terminal (7 days), terminal to terminal (delay 0), with an hour being
3600 * 10^9 nanoseconds; five applications from blank visit the statuses
`·`, `*`, `o`, `x`, `√` in that order, and every further application stays at
`√` with zero delay. -/
theorem nextStatus_table :
    nextStatus ' ' = ('·', 0)
    ∧ nextStatus '·' = ('*', 2 * Hour)
    ∧ nextStatus '*' = ('o', 12 * Hour)
    ∧ nextStatus 'o' = ('x', 24 * Hour)
    ∧ nextStatus 'x' = ('√', 7 * 24 * Hour)
    ∧ nextStatus '√' = ('√', 0)
    ∧ Hour = 3600 * 1000000000
    ∧ [advance 1 ' ', advance 2 ' ', advance 3 ' ', advance 4 ' ', advance 5 ' ']
        = ['·', '*', 'o', 'x', '√']
    ∧ ∀ k : Nat, advance (5 + k) ' ' = '√' ∧ nextStatus (advance (5 + k) ' ') = ('√', 0) := by
  refine ⟨by decide, by decide, by decide, by decide, by decide, by decide, by decide,
    by decide, ?_⟩
  intro k
  have h5 : advance 5 ' ' = '√' := by decide
  have hk : advance (5 + k) ' ' = '√' := by
    rw [advance_add, h5, advance_terminal]
  rw [hk]
  exact ⟨rfl, by decide⟩

/-- C2 (as stated, refuted): the letter `a` is none of the six defined symbols,
yet `nextStatus` does not treat it like blank: it returns blank with zero
delay, not state 1. -/
theorem unrecognized_status_not_like_blank :
    'a' ∉ [' ', '·', '*', 'o', 'x', '√']
    ∧ nextStatus 'a' = (' ', 0)
    ∧ nextStatus 'a' ≠ nextStatus ' '
    ∧ nextStatus 'a' ≠ ('·', 0) := by
  decide

/-- C2 (amended): for every status that is none of the six defined symbols,
`nextStatus` returns the blank status with zero delay. -/
theorem nextStatus_unrecognized (c : Char) (h : c ∉ [' ', '·', '*', 'o', 'x', '√']) :
    nextStatus c = (' ', 0) := by
  simp only [List.mem_cons, List.mem_singleton, List.not_mem_nil, or_false, not_or] at h
  obtain ⟨h1, h2, h3, h4, h5, h6⟩ := h
  simp [nextStatus, h1, h2, h3, h4, h5, h6]

theorem nextStatus_unrecognized_witness :
    'a' ∉ [' ', '·', '*', 'o', 'x', '√'] ∧ nextStatus 'a' = (' ', 0) :=
  ⟨by decide, nextStatus_unrecognized 'a' (by decide)⟩

/-! ## The session model -/

/-- C3: starting from the initial model (selection 0, text-entry focus, any
loaded task list), after every sequence of messages, whatever the text of the
input box, the clock readings and the outcomes of the store, the selection is
valid: 0 when the list is empty, otherwise an index of the list. -/
theorem selection_valid_after_run (todos : List TodoItem) (events : List (Msg × Env)) :
    selectionValid (run (initialModel todos) events) := by
  apply run_selectionValid
  unfold selectionValid initialModel
  by_cases h0 : todos = []
  · simp [h0]
  · have : todos.length ≠ 0 := fun hz => h0 (List.length_eq_zero.mp hz)
    simp only [h0, if_false]
    omega

/-- C4: in list-navigation focus, with the selection `i` on a task whose
status is `x`, Ctrl+Y leaves the list with exactly the element at index `i`
erased (one shorter, the element before `i` at their index, those after `i`
moved down by one), and the selection is 0 if the list is now empty, else
`min i (n - 2)`, hence valid. -/
theorem ctrlY_terminal_removes (m : model) (env : Env) (i : Nat)
    (hf : m.focused = true) (hi : i < m.todos.length) (hs : m.selected = (i : Int))
    (hx : (m.todos.get ⟨i, hi⟩).status = 'x') :
    (Update m (Msg.KeyMsg KeyType.KeyCtrlY) env).1.todos = m.todos.eraseIdx i
    ∧ (Update m (Msg.KeyMsg KeyType.KeyCtrlY) env).1.todos.length = m.todos.length - 1
    ∧ (∀ j : Nat, (Update m (Msg.KeyMsg KeyType.KeyCtrlY) env).1.todos[j]?
        = if j < i then m.todos[j]? else m.todos[j + 1]?)
    ∧ (Update m (Msg.KeyMsg KeyType.KeyCtrlY) env).1.selected
        = (if m.todos.length = 1 then 0 else min (i : Int) ((m.todos.length : Int) - 2))
    ∧ selectionValid (Update m (Msg.KeyMsg KeyType.KeyCtrlY) env).1 := by
  have hterm : (nextStatus (m.todos.get ⟨i, hi⟩).status).1 = '√' := by
    rw [hx]; decide
  have hv : selectionValid m := by
    unfold selectionValid
    have hne : m.todos ≠ [] := by
      intro h0
      rw [h0] at hi
      simp at hi
    simp only [hne, if_false]
    omega
  refine ⟨?_, ?_, ?_, ?_, Update_selectionValid m _ env hv⟩
  · rw [Update_ctrlY_eq m env i hf hi hs]
    simp only [hterm, if_true]
  · rw [Update_ctrlY_eq m env i hf hi hs]
    simp only [hterm, if_true]
    exact List.length_eraseIdx_of_lt hi
  · intro j
    rw [Update_ctrlY_eq m env i hf hi hs]
    simp only [hterm, if_true]
    exact List.getElem?_eraseIdx m.todos i j
  · rw [Update_ctrlY_eq m env i hf hi hs]
    simp only [hterm, if_true]

theorem ctrlY_terminal_removes_witness :
    (Update (single ⟨"A", 'x', ⟨0⟩, false⟩) (Msg.KeyMsg KeyType.KeyCtrlY) (envAt ⟨0⟩)).1.todos = []
    ∧ (Update (single ⟨"A", 'x', ⟨0⟩, false⟩) (Msg.KeyMsg KeyType.KeyCtrlY) (envAt ⟨0⟩)).1.selected
        = 0 := by
  have h := ctrlY_terminal_removes (single ⟨"A", 'x', ⟨0⟩, false⟩) (envAt ⟨0⟩) 0
    rfl (by decide) rfl rfl
  exact ⟨h.1, h.2.2.2.1⟩

/-- C5: Enter changes neither the selection nor the focus.  The list changes
only in text-entry focus with a text whose trimmed form is non-empty and a
successful insert, and then it gains exactly one task at the end: content the
trimmed text, status blank, deadline the submission instant, not completed.
For such a text the insert fails exactly when the store reports an error. -/
theorem enter_submits (m : model) (env : Env) :
    (Update m (Msg.KeyMsg KeyType.KeyEnter) env).1 =
      { m with
        todos :=
          if m.focused = false ∧ TrimSpace env.textareaValue ≠ ""
              ∧ (saveTodo ⟨TrimSpace env.textareaValue, ' ', env.now, false⟩
                    env.dbNow env.execOk).err = false then
            m.todos ++ [⟨TrimSpace env.textareaValue, ' ', env.now, false⟩]
          else m.todos }
    ∧ (saveTodo ⟨TrimSpace env.textareaValue, ' ', env.now, false⟩ env.dbNow env.execOk).err
        = (if TrimSpace env.textareaValue = "" then true else !env.execOk) := by
  have hsave : (saveTodo ⟨TrimSpace env.textareaValue, ' ', env.now, false⟩ env.dbNow env.execOk).err
        = (if TrimSpace env.textareaValue = "" then true else !env.execOk) := by
    simp only [saveTodo, TrimSpace_idem]
    split_ifs <;> rfl
  refine ⟨?_, hsave⟩
  rw [Update_enter_eq, hsave]
  obtain ⟨todos, focused, selected⟩ := m
  by_cases hf : focused = false <;> by_cases hc : TrimSpace env.textareaValue = "" <;>
    cases hx : env.execOk <;> simp [hf, hc]

/-- C6: in list-navigation focus with the selection `i` in range, Ctrl+Y at
instant `env.now` gives the selected task the status `(nextStatus old).1` and
the deadline `env.now + delay` when the delay is positive, its old deadline
when the delay is zero (the blank status has delay zero); this task is the one
handed to `updateTodo`, and it replaces the old one at index `i` unless the
new status is terminal, in which case it is removed.  The resulting model does
not depend on the outcome of the store. -/
theorem ctrlY_updates_status_deadline (m : model) (env : Env) (i : Nat)
    (hf : m.focused = true) (hi : i < m.todos.length) (hs : m.selected = (i : Int)) :
    (Update m (Msg.KeyMsg KeyType.KeyCtrlY) env).2 =
      [Call.updateTodo
        ⟨(m.todos.get ⟨i, hi⟩).content,
         (nextStatus (m.todos.get ⟨i, hi⟩).status).1,
         if (nextStatus (m.todos.get ⟨i, hi⟩).status).2 > 0 then
           env.now.Add (nextStatus (m.todos.get ⟨i, hi⟩).status).2
         else (m.todos.get ⟨i, hi⟩).deadline,
         (m.todos.get ⟨i, hi⟩).completed⟩]
    ∧ (Update m (Msg.KeyMsg KeyType.KeyCtrlY) env).1.todos =
        (if (nextStatus (m.todos.get ⟨i, hi⟩).status).1 = '√' then m.todos.eraseIdx i
         else m.todos.set i
          ⟨(m.todos.get ⟨i, hi⟩).content,
           (nextStatus (m.todos.get ⟨i, hi⟩).status).1,
           if (nextStatus (m.todos.get ⟨i, hi⟩).status).2 > 0 then
             env.now.Add (nextStatus (m.todos.get ⟨i, hi⟩).status).2
           else (m.todos.get ⟨i, hi⟩).deadline,
           (m.todos.get ⟨i, hi⟩).completed⟩)
    ∧ (nextStatus ' ').2 = 0
    ∧ ∀ (ok : Bool) (dbNow : Time),
        (Update m (Msg.KeyMsg KeyType.KeyCtrlY) { env with execOk := ok, dbNow := dbNow }).1
          = (Update m (Msg.KeyMsg KeyType.KeyCtrlY) env).1 := by
  refine ⟨?_, ?_, by decide, ?_⟩
  · rw [Update_ctrlY_eq m env i hf hi hs]
  · rw [Update_ctrlY_eq m env i hf hi hs]
    split_ifs <;> rfl
  · intro ok dbNow
    rw [Update_ctrlY_eq m env i hf hi hs, Update_ctrlY_eq m _ i hf hi hs]

theorem ctrlY_updates_status_deadline_witness :
    (Update (single ⟨"A", '·', ⟨0⟩, false⟩) (Msg.KeyMsg KeyType.KeyCtrlY) (envAt ⟨0⟩)).2
      = [Call.updateTodo ⟨"A", '*', ⟨7200000000000⟩, false⟩] :=
  (ctrlY_updates_status_deadline (single ⟨"A", '·', ⟨0⟩, false⟩) (envAt ⟨0⟩) 0
    rfl (by decide) rfl).1.trans (by decide)

/-- C7 (as stated, refuted): the single task `A` has status `x` and is not
completed, so it satisfies the invariant; Ctrl+Y hands it to `updateTodo` with
status `√` and `completed = false`, and these are the values written. -/
theorem ctrlY_completed_not_set :
    (∀ t ∈ (single ⟨"A", 'x', ⟨0⟩, false⟩).todos, completedTracksStatus t)
    ∧ (Update (single ⟨"A", 'x', ⟨0⟩, false⟩) (Msg.KeyMsg KeyType.KeyCtrlY) (envAt ⟨0⟩)).2
        = [Call.updateTodo ⟨"A", '√', ⟨604800000000000⟩, false⟩]
    ∧ ¬ completedTracksStatus ⟨"A", '√', ⟨604800000000000⟩, false⟩
    ∧ (updateTodo ⟨"A", '√', ⟨604800000000000⟩, false⟩ ⟨0⟩ true).calls
        = [DbCall.updateTodos "√" "01-01 00:00" false "A"] := by
  decide

/-- C7 (amended): Ctrl+Y never writes the `completed` flag.  Starting from
tasks whose flag agrees with the terminal status, every task left in the list
still agrees, and the task handed to `updateTodo` carries the old flag of the
selected task; it agrees with its new status exactly when the old status is
not `x`. -/
theorem ctrlY_completed_unchanged (m : model) (env : Env) (i : Nat)
    (hf : m.focused = true) (hi : i < m.todos.length) (hs : m.selected = (i : Int))
    (hinv : ∀ t ∈ m.todos, completedTracksStatus t) :
    (∀ t ∈ (Update m (Msg.KeyMsg KeyType.KeyCtrlY) env).1.todos, completedTracksStatus t)
    ∧ ∃ t : TodoItem, (Update m (Msg.KeyMsg KeyType.KeyCtrlY) env).2 = [Call.updateTodo t]
        ∧ t.completed = (m.todos.get ⟨i, hi⟩).completed
        ∧ (completedTracksStatus t ↔ (m.todos.get ⟨i, hi⟩).status ≠ 'x') := by
  have hold : completedTracksStatus (m.todos.get ⟨i, hi⟩) :=
    hinv _ (List.get_mem m.todos i hi)
  unfold completedTracksStatus at hold
  rw [Update_ctrlY_eq m env i hf hi hs]
  constructor
  · intro t ht
    by_cases hterm : (nextStatus (m.todos.get ⟨i, hi⟩).status).1 = '√'
    · simp only [hterm, if_true] at ht
      exact hinv t (List.mem_of_mem_eraseIdx ht)
    · simp only [hterm, if_false] at ht
      rcases List.mem_or_eq_of_mem_set ht with hmem | heq
      · exact hinv t hmem
      · subst heq
        unfold completedTracksStatus
        simp only [hterm, iff_false]
        intro hc
        apply hterm
        rw [nextStatus_terminal_iff]
        exact Or.inr (hold.mp hc)
  · refine ⟨_, rfl, rfl, ?_⟩
    unfold completedTracksStatus
    simp only [nextStatus_terminal_iff, hold]
    constructor
    · intro h hx
      have h2 := h.mpr (Or.inl hx)
      rw [hx] at h2
      exact absurd h2 (by decide)
    · intro hx
      constructor
      · intro h; exact Or.inr h
      · intro h
        rcases h with h | h
        · exact absurd h hx
        · exact h

theorem ctrlY_completed_unchanged_witness :
    (⟨"A", '*', ⟨7200000000000⟩, false⟩ : TodoItem)
        ∈ (Update (single ⟨"A", '·', ⟨0⟩, false⟩) (Msg.KeyMsg KeyType.KeyCtrlY)
            (envAt ⟨0⟩)).1.todos
    ∧ completedTracksStatus ⟨"A", '*', ⟨7200000000000⟩, false⟩ :=
  ⟨by decide,
   (ctrlY_completed_unchanged (single ⟨"A", '·', ⟨0⟩, false⟩) (envAt ⟨0⟩) 0
      rfl (by decide) rfl (by decide)).1 _ (by decide)⟩

/-- C9: frame of Ctrl+Y.  In list-navigation focus with the selection `i` in
range, the focus is unchanged, the task handed to `updateTodo` has the content
of the selected task, and either the selected task is removed (the list is the
old one with index `i` erased) or the list keeps its length, every other index
holds the same task as before and index `i` holds a task with the same content.
In text-entry focus, or on an empty list, Ctrl+Y changes nothing and calls
nothing.  Scenario: from `[a, b]` with `b` in state 1 and the selection on `b`,
three advances take `b` through `*`, `o`, `x` (deadlines 2h, 12h, 24h after
each instant) with `a` and the selection unchanged, and a fourth leaves `[a]`
with selection 0. -/
theorem ctrlY_frame (m : model) (env : Env) :
    (∀ (i : Nat) (hi : i < m.todos.length), m.focused = true → m.selected = (i : Int) →
      (Update m (Msg.KeyMsg KeyType.KeyCtrlY) env).1.focused = m.focused
      ∧ (∀ t, Call.updateTodo t ∈ (Update m (Msg.KeyMsg KeyType.KeyCtrlY) env).2 →
          t.content = (m.todos.get ⟨i, hi⟩).content)
      ∧ ((nextStatus (m.todos.get ⟨i, hi⟩).status).1 = '√' →
          (Update m (Msg.KeyMsg KeyType.KeyCtrlY) env).1.todos = m.todos.eraseIdx i)
      ∧ ((nextStatus (m.todos.get ⟨i, hi⟩).status).1 ≠ '√' →
          (Update m (Msg.KeyMsg KeyType.KeyCtrlY) env).1.todos.length = m.todos.length
          ∧ (Update m (Msg.KeyMsg KeyType.KeyCtrlY) env).1.selected = m.selected
          ∧ (∀ j : Nat, j ≠ i →
              (Update m (Msg.KeyMsg KeyType.KeyCtrlY) env).1.todos[j]? = m.todos[j]?)
          ∧ ((Update m (Msg.KeyMsg KeyType.KeyCtrlY) env).1.todos[i]?).map TodoItem.content
              = some (m.todos.get ⟨i, hi⟩).content))
    ∧ (m.focused = false ∨ m.todos = [] →
        Update m (Msg.KeyMsg KeyType.KeyCtrlY) env = (m, []))
    ∧ (∀ (a b : TodoItem) (e1 e2 e3 e4 : Env), b.status = '·' →
        run ⟨[a, b], true, 1⟩ [(Msg.KeyMsg KeyType.KeyCtrlY, e1)]
          = ⟨[a, ⟨b.content, '*', e1.now.Add (2 * Hour), b.completed⟩], true, 1⟩
        ∧ run ⟨[a, b], true, 1⟩
            [(Msg.KeyMsg KeyType.KeyCtrlY, e1), (Msg.KeyMsg KeyType.KeyCtrlY, e2)]
          = ⟨[a, ⟨b.content, 'o', e2.now.Add (12 * Hour), b.completed⟩], true, 1⟩
        ∧ run ⟨[a, b], true, 1⟩
            [(Msg.KeyMsg KeyType.KeyCtrlY, e1), (Msg.KeyMsg KeyType.KeyCtrlY, e2),
             (Msg.KeyMsg KeyType.KeyCtrlY, e3)]
          = ⟨[a, ⟨b.content, 'x', e3.now.Add (24 * Hour), b.completed⟩], true, 1⟩
        ∧ run ⟨[a, b], true, 1⟩
            [(Msg.KeyMsg KeyType.KeyCtrlY, e1), (Msg.KeyMsg KeyType.KeyCtrlY, e2),
             (Msg.KeyMsg KeyType.KeyCtrlY, e3), (Msg.KeyMsg KeyType.KeyCtrlY, e4)]
          = ⟨[a], true, 0⟩) := by
  refine ⟨?_, ?_, ?_⟩
  · intro i hi hf hs
    rw [Update_ctrlY_eq m env i hf hi hs]
    refine ⟨?_, ?_, ?_, ?_⟩
    · split_ifs <;> rfl
    · intro t ht
      simp only [List.mem_singleton, Call.updateTodo.injEq] at ht
      rw [ht]
    · intro hterm
      simp only [hterm, if_true]
    · intro hterm
      simp only [hterm, if_false, List.length_set, true_and]
      refine ⟨?_, ?_⟩
      · intro j hj
        exact List.getElem?_set_ne (Ne.symm hj)
      · rw [List.getElem?_set_eq_of_lt _ hi]
        rfl
  · intro h
    apply Update_ctrlY_skip
    rintro ⟨hf, hpos, -, -⟩
    rcases h with h | h
    · rw [h] at hf
      exact absurd hf (by decide)
    · rw [h] at hpos
      simp at hpos
  · intro a b e1 e2 e3 e4 hb
    have s1 : (nextStatus '·') = ('*', 2 * Hour) := by decide
    have s2 : (nextStatus '*') = ('o', 12 * Hour) := by decide
    have s3 : (nextStatus 'o') = ('x', 24 * Hour) := by decide
    have s4 : (nextStatus 'x').1 = '√' := by decide
    have p1 : (2 * Hour > 0) = True := by simp [Hour]
    have p2 : (12 * Hour > 0) = True := by simp [Hour]
    have p3 : (24 * Hour > 0) = True := by simp [Hour]
    have c1 : ('*' = '√') = False := by simp
    have c2 : ('o' = '√') = False := by simp
    have c3 : ('x' = '√') = False := by simp
    simp only [run, Update_ctrlY_second, hb, s1, s2, s3, s4, p1, p2, p3, c1, c2, c3,
      if_true, if_false, and_self]

theorem ctrlY_frame_witness :
    (Update ⟨[⟨"A", '·', ⟨0⟩, false⟩, ⟨"B", '·', ⟨0⟩, false⟩], true, 1⟩
        (Msg.KeyMsg KeyType.KeyCtrlY) (envAt ⟨0⟩)).1.todos[0]?
      = some ⟨"A", '·', ⟨0⟩, false⟩
    ∧ run ⟨[⟨"A", '·', ⟨0⟩, false⟩, ⟨"B", '·', ⟨0⟩, false⟩], true, 1⟩
        [(Msg.KeyMsg KeyType.KeyCtrlY, envAt ⟨0⟩), (Msg.KeyMsg KeyType.KeyCtrlY, envAt ⟨0⟩),
         (Msg.KeyMsg KeyType.KeyCtrlY, envAt ⟨0⟩), (Msg.KeyMsg KeyType.KeyCtrlY, envAt ⟨0⟩)]
      = ⟨[⟨"A", '·', ⟨0⟩, false⟩], true, 0⟩ :=
  ⟨((ctrlY_frame ⟨[⟨"A", '·', ⟨0⟩, false⟩, ⟨"B", '·', ⟨0⟩, false⟩], true, 1⟩
      (envAt ⟨0⟩)).1 1 (by decide) rfl rfl).2.2.2 (by decide) |>.2.2.1 0 (by decide),
   ((ctrlY_frame ⟨[], false, 0⟩ (envAt ⟨0⟩)).2.2 ⟨"A", '·', ⟨0⟩, false⟩ ⟨"B", '·', ⟨0⟩, false⟩
      (envAt ⟨0⟩) (envAt ⟨0⟩) (envAt ⟨0⟩) (envAt ⟨0⟩) rfl).2.2.2⟩

/-- C10: with a valid selection, Up moves the selection down by one in
list-navigation focus when it is above 0 and otherwise leaves it, Down moves it
up by one in list-navigation focus when it is below `len - 1` and otherwise
leaves it; neither changes the list or the focus, both results are valid
selections, and on an empty list both leave the selection at 0. -/
theorem moveSelection_clamped (m : model) (env : Env) (hv : selectionValid m) :
    (Update m (Msg.KeyMsg KeyType.KeyUp) env).1 =
      { m with selected :=
          if m.focused = true ∧ m.selected > 0 then m.selected - 1 else m.selected }
    ∧ (Update m (Msg.KeyMsg KeyType.KeyDown) env).1 =
      { m with selected :=
          if m.focused = true ∧ m.selected < (m.todos.length : Int) - 1 then m.selected + 1
          else m.selected }
    ∧ selectionValid (Update m (Msg.KeyMsg KeyType.KeyUp) env).1
    ∧ selectionValid (Update m (Msg.KeyMsg KeyType.KeyDown) env).1
    ∧ (m.todos = [] → (Update m (Msg.KeyMsg KeyType.KeyUp) env).1.selected = 0
        ∧ (Update m (Msg.KeyMsg KeyType.KeyDown) env).1.selected = 0) := by
  refine ⟨?_, ?_, Update_selectionValid m _ env hv, Update_selectionValid m _ env hv, ?_⟩
  · rw [Update_up_eq]
  · rw [Update_down_eq]
    unfold selectionValid at hv
    by_cases h0 : m.todos = []
    · simp only [h0, if_true] at hv
      simp [h0, hv]
    · have hl : m.todos.length ≠ 0 := fun hz => h0 (List.length_eq_zero.mp hz)
      have hpos : m.todos.length > 0 := Nat.pos_of_ne_zero hl
      simp only [hpos, true_and]
  · intro h0
    unfold selectionValid at hv
    simp only [h0, if_true] at hv
    rw [Update_up_eq, Update_down_eq]
    simp [h0, hv]

theorem moveSelection_clamped_witness :
    (Update ⟨[⟨"A", '·', ⟨0⟩, false⟩, ⟨"B", '·', ⟨0⟩, false⟩], true, 0⟩
        (Msg.KeyMsg KeyType.KeyDown) (envAt ⟨0⟩)).1
      = ⟨[⟨"A", '·', ⟨0⟩, false⟩, ⟨"B", '·', ⟨0⟩, false⟩], true, 1⟩ :=
  (moveSelection_clamped ⟨[⟨"A", '·', ⟨0⟩, false⟩, ⟨"B", '·', ⟨0⟩, false⟩], true, 0⟩
    (envAt ⟨0⟩) (by decide)).2.1.trans (by decide)

/-! ## Persistence -/

/-- C8 (as stated, refuted): with both clock readings at 2023-11-14 22:13:20
UTC, Ctrl+Y on a task in state 1 hands `updateTodo` a task whose deadline is
two hours later, formatted `11-15 00:13`; the deadline parameter of the UPDATE
is the formatted clock reading `11-14 22:13`, not the task's deadline. -/
theorem updateTodo_ignores_deadline :
    (Update (single ⟨"A", '·', ⟨1700000000000000000⟩, false⟩) (Msg.KeyMsg KeyType.KeyCtrlY)
        (envAt ⟨1700000000000000000⟩)).2
      = [Call.updateTodo ⟨"A", '*', ⟨1700007200000000000⟩, false⟩]
    ∧ (updateTodo ⟨"A", '*', ⟨1700007200000000000⟩, false⟩ ⟨1700000000000000000⟩ true).calls
        = [DbCall.updateTodos "*" "11-14 22:13" false "A"]
    ∧ (Time.mk 1700007200000000000).Format "01-02 15:04" = "11-15 00:13"
    ∧ (updateTodo ⟨"A", '*', ⟨1700007200000000000⟩, false⟩ ⟨1700000000000000000⟩ true).calls
        ≠ [DbCall.updateTodos "*" ((Time.mk 1700007200000000000).Format "01-02 15:04")
            false "A"] := by
  decide

/-- C8 (amended): `updateTodo` issues one UPDATE keyed by the task's content,
whose status and completed parameters are the task's own values and whose
deadline parameter is the clock reading taken inside `updateTodo`, formatted
as `01-02 15:04`; the statement does not depend on the task's deadline, and
the function reports an error exactly when the store does. -/
theorem updateTodo_params (t : TodoItem) (now : Time) (ok : Bool) :
    (updateTodo t now ok).calls
      = [DbCall.updateTodos (String.singleton t.status) (now.Format "01-02 15:04")
          t.completed t.content]
    ∧ (updateTodo t now ok).err = !ok
    ∧ ∀ d : Time, updateTodo { t with deadline := d } now ok = updateTodo t now ok := by
  refine ⟨rfl, rfl, ?_⟩
  intro d
  rfl

end MemoryCurving
